import Mathlib

/-!
# Verification of the rectangular-forms control-tree engine

A shallow embedding, in Lean 4, of the reactive form-control model of the
repository (src/src/model/abstract_model.ts and src/src/model/form_control.ts),
together with proofs about the status-derivation algorithm, the
asynchronous-validator lifecycle, event-emission ordering, validator
bookkeeping, reset semantics, path resolution and error lookup.

Conventions of the embedding:
* JavaScript runtime values that the engine inspects (error details, control
  values) are embedded as the inductive types `JVal` and `Value` below;
  JS truthiness is `JVal.truthy`.
* `errors: ValidationErrors | null` becomes `Option ErrMap` (`none` = `null`);
  an error map is an association list, so a *present but empty* map
  (`some []`, the JS `\x7b\x7d` object, which is truthy) is distinguishable
  from `null`.
* Mutation of a control becomes explicit state passing on the structures
  `CData` (the fields of `AbstractControl`) and `FC` (a `FormControl`).
* The observables `valueChanges` / `statusChanges` (class `EventEmitter`,
  whose source is not part of src/; the spec describes synchronous, in-order
  multicast emission) are embedded as an ordered event log returned by each
  operation: each `emit` appends one event.
* The asynchronous-validator subscription (`obs.subscribe(cb)` via rxjs) is
  embedded by giving every started run a fresh identifier.  `liveSubs` holds
  the identifiers of runs that are subscribed and have not yet fired or been
  unsubscribed; a result can be delivered (`fcDeliverAsync`) only for a run
  that is still live, which is exactly rxjs unsubscription semantics.
  Delivery is a separate step: only async validation suspends.
* External callback hooks (`forceUpdate`, `_onChange`, `_onDisabledChange`)
  do not read or write any control state used by the claims; their invocation
  is omitted from the embedding.
* Validator functions receive the control in the source (`validator(this)`);
  a validator is embedded as a function of the control's value, which is the
  only part of the control that distinguishes the states compared here.
  JS function-reference identity (used by `hasValidator` / `removeValidators`)
  is embedded by tagging every validator function with a numeric identity.
-/

namespace RForms

/-- A JavaScript runtime value, as far as the engine inspects one:
`null`, `undefined`, booleans, numbers and strings. -/
inductive JVal where
  | jnull
  | undef
  | bool (b : Bool)
  | num (n : Int)
  | str (s : String)
deriving DecidableEq, Repr

/-- JS truthiness of a `JVal` (`!!v`). -/
def JVal.truthy : JVal → Bool
  | .jnull => false
  | .undef => false
  | .bool b => b
  | .num n => n ≠ 0
  | .str s => s ≠ ""

/-- `ValidationErrors`: a map from error key to error detail.  Association
list; `Option ErrMap` embeds `ValidationErrors | null`. -/
abbrev ErrMap := List (String × JVal)

/-- JS property lookup `m[k]` on an error map: `undefined` when absent. -/
def errGet (m : ErrMap) (k : String) : JVal :=
  match m.find? (fun p => p.1 = k) with
  | some p => p.2
  | none => JVal.undef

/-- `FormControlStatus`: VALID | INVALID | PENDING | DISABLED. -/
inductive Status where
  | VALID
  | INVALID
  | PENDING
  | DISABLED
deriving DecidableEq, Repr

/-- A control value: an opaque leaf payload, an object (a `FormGroup`
value), or an array (a `FormArray` value). -/
inductive Value where
  | atom (v : JVal)
  | obj (fields : List (String × Value))
  | arr (items : List Value)

/-- JS property read `obj[k]` on a value object: `undefined` when the key is
absent (used by `assertAllValuesPresent`, which tests `value[key] === undefined`). -/
def Value.objGet (fields : List (String × Value)) (k : String) : Value :=
  match fields.find? (fun p => p.1 = k) with
  | some p => p.2
  | none => Value.atom JVal.undef

/-- A synchronous validator function (`ValidatorFn`).  `id` embeds JS
function-reference identity; `fn` is the validation predicate, a function of
the control's value returning an error map or `null`. -/
structure VFn where
  id : Nat
  fn : Value → Option ErrMap

/-- An asynchronous validator function (`AsyncValidatorFn`). `fn` gives the
result that the run started at a given control value will eventually emit. -/
structure AVFn where
  id : Nat
  fn : Value → Option ErrMap

/-- `ValidatorFn | ValidatorFn[] | null`, the type of the raw validator
fields (`_rawValidators`). -/
inductive RawV where
  | nothing
  | single (f : VFn)
  | many (fs : List VFn)

/-- `AsyncValidatorFn | AsyncValidatorFn[] | null` (`_rawAsyncValidators`). -/
inductive RawAV where
  | nothing
  | single (f : AVFn)
  | many (fs : List AVFn)

/-- Merge the non-null results of several validators into one map; a later
validator's entry overwrites an earlier one with the same key.
Modelled from the spec: the Validator Composer (`composeValidators` /
`mergeErrors` live in src/validators, which is not part of src/): run all
validators, merge their non-null error maps, later keys win by overwrite,
and if every validator yields no error the composed result is absent. -/
def mergeErrors (results : List (Option ErrMap)) : Option ErrMap :=
  let merged := results.foldl
    (fun acc r =>
      match r with
      | none => acc
      | some m => acc.filter (fun p => m.find? (fun q => q.1 = p.1) = none) ++ m)
    []
  if merged = [] then none else some merged

/-- Modelled from the spec: `composeValidators` (src/validators, not part of
src/) — one callable running every validator and merging the outcomes. -/
def composeValidators (fs : List VFn) (v : Value) : Option ErrMap :=
  mergeErrors (fs.map (fun f => f.fn v))

/-- `coerceToValidator`: an array is composed, a single function is used
directly, null stays null.  The composed callable of a list is tagged with
identity 0; its identity is never compared by the engine. -/
def coerceToValidator : RawV → Option VFn
  | .nothing => none
  | .single f => some f
  | .many fs => some ⟨0, composeValidators fs⟩

/-- Modelled from the spec: the asynchronous Validator Composer is identical
to the synchronous one but merges the results of the concurrently awaited
calls once all have settled (`composeAsyncValidators`, src/validators). -/
def composeAsyncValidators (fs : List AVFn) (v : Value) : Option ErrMap :=
  mergeErrors (fs.map (fun f => f.fn v))

/-- `coerceToAsyncValidator`. -/
def coerceToAsyncValidator : RawAV → Option AVFn
  | .nothing => none
  | .single f => some f
  | .many fs => some ⟨0, composeAsyncValidators fs⟩

/-- The raw validators viewed as a list (helper `makeValidatorsArray`). -/
def RawV.toList : RawV → List VFn
  | .nothing => []
  | .single f => [f]
  | .many fs => fs

/-- Modelled from the spec: `hasValidator` helper (src/validators, not part
of src/) — presence by function reference. -/
def hasValidatorIn (raw : RawV) (f : VFn) : Bool :=
  raw.toList.any (fun g => g.id = f.id)

/-- Modelled from the spec: `addValidators` helper (src/validators) — add the
given validators to the current ones; a validator that is already present
(by function reference) is not added again. -/
def addValidatorsTo (news : List VFn) (current : RawV) : RawV :=
  RawV.many (current.toList ++
    news.filter (fun f => ¬ (current.toList.any (fun g => g.id = f.id))))

/-- Modelled from the spec: `removeValidators` helper (src/validators) —
remove the given validators, compared by function reference. -/
def removeValidatorsFrom (olds : List VFn) (current : RawV) : RawV :=
  RawV.many (current.toList.filter
    (fun g => ¬ (olds.any (fun f => f.id = g.id))))

/-- `RawAV.toList`. -/
def RawAV.toList : RawAV → List AVFn
  | .nothing => []
  | .single f => [f]
  | .many fs => fs

/-- Async variant of `addValidatorsTo`. -/
def addAsyncValidatorsTo (news : List AVFn) (current : RawAV) : RawAV :=
  RawAV.many (current.toList ++
    news.filter (fun f => ¬ (current.toList.any (fun g => g.id = f.id))))

/-- Async variant of `removeValidatorsFrom`. -/
def removeAsyncValidatorsFrom (olds : List AVFn) (current : RawAV) : RawAV :=
  RawAV.many (current.toList.filter
    (fun g => ¬ (olds.any (fun f => f.id = g.id))))

/-- One live or past asynchronous-validator subscription: the run identifier
and the result the underlying observable will emit (fixed when the run is
started, i.e. `toObservable(this.asyncValidator(this))`). -/
structure Subn where
  id : Nat
  result : Option ErrMap
deriving DecidableEq, Repr

/-- The mutable state of an `AbstractControl` (the fields of the class that
the engine itself reads and writes). -/
structure CData where
  /-- `value`. -/
  value : Value
  /-- `status`. -/
  status : Status
  /-- `errors` (`none` = `null`). -/
  errors : Option ErrMap
  /-- `pristine` (default `true`). -/
  pristine : Bool := true
  /-- `touched` (default `false`). -/
  touched : Bool := false
  /-- `_pendingDirty`. -/
  pendingDirty : Bool := false
  /-- `_pendingTouched`. -/
  pendingTouched : Bool := false
  /-- `_hasOwnPendingAsyncValidator`. -/
  hasOwnPendingAsyncValidator : Bool := false
  /-- `_rawValidators`. -/
  rawValidators : RawV := .nothing
  /-- `_composedValidatorFn`. -/
  composedValidatorFn : Option VFn := none
  /-- `_rawAsyncValidators`. -/
  rawAsyncValidators : RawAV := .nothing
  /-- `_composedAsyncValidatorFn`. -/
  composedAsyncValidatorFn : Option AVFn := none
  /-- `_asyncValidationSubscription`: the most recently created subscription
  object.  The source never clears this field; liveness is tracked by
  `liveSubs`. -/
  asyncValidationSubscription : Option Subn := none
  /-- The subscriptions that are currently subscribed and have not fired:
  the runs whose callback can still be invoked. -/
  liveSubs : List Subn := []
  /-- Fresh-identifier source for subscriptions. -/
  nextSubId : Nat := 0

/-- `get validator()`: the composed synchronous validator. -/
def CData.validator (d : CData) : Option VFn := d.composedValidatorFn

/-- `get enabled()`: any status other than DISABLED. -/
def CData.enabled (d : CData) : Bool := d.status ≠ Status.DISABLED

/-- `get disabled()`. -/
def CData.disabled (d : CData) : Bool := d.status = Status.DISABLED

/-- `setValidators(validators)`: overwrite the raw synchronous validators and
recompute the composed function.  Nothing else. -/
def setValidatorsC (d : CData) (v : RawV) : CData :=
  { d with rawValidators := v, composedValidatorFn := coerceToValidator v }

/-- `setAsyncValidators(validators)`. -/
def setAsyncValidatorsC (d : CData) (v : RawAV) : CData :=
  { d with rawAsyncValidators := v,
           composedAsyncValidatorFn := coerceToAsyncValidator v }

/-- `addValidators(validators)` = `setValidators(addValidators(v, raw))`. -/
def addValidatorsC (d : CData) (news : List VFn) : CData :=
  setValidatorsC d (addValidatorsTo news d.rawValidators)

/-- `removeValidators(validators)`. -/
def removeValidatorsC (d : CData) (olds : List VFn) : CData :=
  setValidatorsC d (removeValidatorsFrom olds d.rawValidators)

/-- `addAsyncValidators(validators)`. -/
def addAsyncValidatorsC (d : CData) (news : List AVFn) : CData :=
  setAsyncValidatorsC d (addAsyncValidatorsTo news d.rawAsyncValidators)

/-- `removeAsyncValidators(validators)`. -/
def removeAsyncValidatorsC (d : CData) (olds : List AVFn) : CData :=
  setAsyncValidatorsC d (removeAsyncValidatorsFrom olds d.rawAsyncValidators)

/-- `hasValidator(validator)`. -/
def hasValidatorC (d : CData) (f : VFn) : Bool :=
  hasValidatorIn d.rawValidators f

/-- One event on a control's own Event Channel: an emission of
`valueChanges` or of `statusChanges`. -/
inductive LEv where
  | val (v : Value)
  | stat (s : Status)

/-- Options `\x7bonlySelf?, emitEvent?\x7d`.  `emitEvent` is kept as an
`Option Bool` because the source distinguishes `undefined` from `false`
(`opts.emitEvent !== false`). -/
structure Opts where
  onlySelf : Bool := false
  emitEvent : Option Bool := none

/-- `_runValidator()`: `this.validator ? this.validator(this) : null`. -/
def runValidatorC (d : CData) : Option ErrMap :=
  match d.validator with
  | some v => v.fn d.value
  | none => none

/-- `_calculateStatus()`, with the child observations
(`_allControlsDisabled()`, `_anyControlsHaveStatus(PENDING)`,
`_anyControlsHaveStatus(INVALID)`) supplied by the concrete control kind. -/
def calculateStatus (allDisabled anyPending anyInvalid : Bool)
    (d : CData) : Status :=
  if allDisabled then Status.DISABLED
  else if d.errors.isSome then Status.INVALID
  else if d.hasOwnPendingAsyncValidator || anyPending then Status.PENDING
  else if anyInvalid then Status.INVALID
  else Status.VALID

/-- `_cancelExistingSubscription()`: if a subscription object exists,
unsubscribe it (it can no longer fire) and clear the own-pending flag. -/
def cancelExistingSubscription (d : CData) : CData :=
  match d.asyncValidationSubscription with
  | some s =>
      { d with liveSubs := d.liveSubs.filter (fun t => t.id ≠ s.id),
               hasOwnPendingAsyncValidator := false }
  | none => d

/-- `_runAsyncValidator(emitEvent)`: when an async validator is configured,
set status to PENDING, raise the own-pending flag, start the run and
subscribe to its result. -/
def runAsyncValidatorC (d : CData) : CData :=
  match d.composedAsyncValidatorFn with
  | some av =>
      let s : Subn := ⟨d.nextSubId, av.fn d.value⟩
      { d with status := Status.PENDING,
               hasOwnPendingAsyncValidator := true,
               asyncValidationSubscription := some s,
               liveSubs := d.liveSubs ++ [s],
               nextSubId := d.nextSubId + 1 }
  | none => d

/-- `_setInitialStatus()`: DISABLED if `_allControlsDisabled()`, else VALID. -/
def setInitialStatus (allDisabled : Bool) (d : CData) : CData :=
  { d with status := if allDisabled then Status.DISABLED else Status.VALID }

/-- The `if (this.enabled)` block of `updateValueAndValidity`:
`_cancelExistingSubscription()`, `errors := _runValidator()`,
`status := _calculateStatus()`, and if the status is VALID or PENDING run
the asynchronous validator. -/
def uvavEnabledStep (allDisabled anyPending anyInvalid : Bool)
    (d : CData) : CData :=
  let d := cancelExistingSubscription d
  let d := { d with errors := runValidatorC d }
  let d := { d with
    status := calculateStatus allDisabled anyPending anyInvalid d }
  if d.status = Status.VALID ∨ d.status = Status.PENDING then
    runAsyncValidatorC d
  else d

/-- The core of `updateValueAndValidity` for one control, with the concrete
kind's child observations passed in (for a `FormControl`:
`allDisabled = this.disabled`, no child has any status, and `_updateValue()`
is a no-op, embedded by passing `newValue = d.value`).
Sequence, exactly as in the source: `_setInitialStatus()`;
`_updateValue()`; the enabled block; finally, unless `emitEvent === false`,
emit the value and then the status.  The caller appends the parent
recomputation. -/
def uvavCore (allDisabled anyPending anyInvalid : Bool) (newValue : Value)
    (opts : Opts) (d : CData) : CData × List LEv :=
  let d := setInitialStatus allDisabled d
  let d := { d with value := newValue }
  let d :=
    if d.enabled then uvavEnabledStep allDisabled anyPending anyInvalid d
    else d
  let evs := if opts.emitEvent ≠ some false
    then [LEv.val d.value, LEv.stat d.status] else []
  (d, evs)

/-! ## FormControl (the leaf control kind; src/src/model/form_control.ts)

For a `FormControl`: `_updateValue()` is a no-op, `_anyControls(cond)` is
`false`, `_allControlsDisabled()` is `this.disabled`, `_forEachChild` does
nothing.  So every inherited `AbstractControl` method specialises to a pure
transformation of the control's own state. -/

/-- The state of a `FormControl`: the `AbstractControl` fields plus the
subclass fields `defaultValue`, `_pendingValue`, `_pendingChange`. -/
structure FC where
  core : CData
  /-- `defaultValue` (`null` unless `initialValueIsDefault`). -/
  defaultValue : Value := Value.atom JVal.jnull
  /-- `_pendingValue`. -/
  pendingValue : Value := Value.atom JVal.jnull
  /-- `_pendingChange`. -/
  pendingChange : Bool := false

/-- `updateValueAndValidity(opts)` on a `FormControl`, standing alone
(`parent = null`, so no upward recursion): `uvavCore` with the leaf
observations — `_allControlsDisabled() = this.disabled`, no children. -/
def fcUvav (opts : Opts) (fc : FC) : FC × List LEv :=
  let r := uvavCore fc.core.disabled false false fc.core.value opts fc.core
  ({ fc with core := r.1 }, r.2)

/-- `setValue(value, options)` on a `FormControl`: assign `value` and
`_pendingValue`, then `updateValueAndValidity(options)`.  (The `forceUpdate`
hook and the `_onChange` view listeners receive the new value but touch no
control state.) -/
def fcSetValue (v : Value) (opts : Opts) (fc : FC) : FC × List LEv :=
  fcUvav opts { fc with core := { fc.core with value := v }, pendingValue := v }

/-- `patchValue` on a `FormControl` is `setValue`. -/
def fcPatchValue (v : Value) (opts : Opts) (fc : FC) : FC × List LEv :=
  fcSetValue v opts fc

/-- `disable(opts)` on a stand-alone `FormControl`: set status DISABLED,
clear `errors`, (no children to recurse into, `_updateValue()` is a no-op),
emit value and status unless `emitEvent === false`, (no ancestors).
Note: the outstanding asynchronous-validator subscription, if any, is left
untouched. -/
def fcDisable (opts : Opts) (fc : FC) : FC × List LEv :=
  let d := { fc.core with status := Status.DISABLED, errors := none }
  let evs := if opts.emitEvent ≠ some false
    then [LEv.val d.value, LEv.stat d.status] else []
  ({ fc with core := d }, evs)

/-- `enable(opts)` on a stand-alone `FormControl`: set status VALID, then
`updateValueAndValidity(\x7bonlySelf: true, emitEvent: opts.emitEvent\x7d)`. -/
def fcEnable (opts : Opts) (fc : FC) : FC × List LEv :=
  let fc := { fc with core := { fc.core with status := Status.VALID } }
  fcUvav { onlySelf := true, emitEvent := opts.emitEvent } fc

/-- `_updateControlsErrors(emitEvent)` on a stand-alone `FormControl`:
recalculate the status and emit it; no parent. -/
def fcUpdateControlsErrors (emitEvent : Bool) (fc : FC) : FC × List LEv :=
  let d := { fc.core with
    status := calculateStatus fc.core.disabled false false fc.core }
  ({ fc with core := d }, if emitEvent then [LEv.stat d.status] else [])

/-- `setErrors(errors, opts)`: overwrite `errors` and recompute the status
chain (`_updateControlsErrors(opts.emitEvent !== false)`). -/
def fcSetErrors (errors : Option ErrMap) (opts : Opts) (fc : FC) :
    FC × List LEv :=
  fcUpdateControlsErrors (opts.emitEvent ≠ some false)
    { fc with core := { fc.core with errors := errors } }

/-- The result of the asynchronous run `i` arrives.  rxjs delivers it only
if the subscription is still subscribed (it is in `liveSubs`); the callback
clears `_hasOwnPendingAsyncValidator` and then calls
`setErrors(errors, \x7bemitEvent\x7d)` — in the source `emitEvent` is the
value captured when the run was started, supplied here at the delivery
step.  A fired single-shot subscription is no longer live. -/
def fcDeliverAsync (i : Nat) (opts : Opts) (fc : FC) : FC × List LEv :=
  match fc.core.liveSubs.find? (fun s => s.id = i) with
  | some s =>
      let fc := { fc with core := { fc.core with
        liveSubs := fc.core.liveSubs.filter (fun t => t.id ≠ i),
        hasOwnPendingAsyncValidator := false } }
      fcSetErrors s.result opts fc
  | none => (fc, [])

/-- `markAsTouched` (stand-alone control: no parent to propagate to). -/
def fcMarkAsTouched (fc : FC) : FC :=
  { fc with core := { fc.core with touched := true } }

/-- `markAsUntouched`: clear `touched` and `_pendingTouched` (a
`FormControl` has no children to recurse into, and no parent here). -/
def fcMarkAsUntouched (fc : FC) : FC :=
  { fc with core := { fc.core with touched := false, pendingTouched := false } }

/-- `markAsDirty`. -/
def fcMarkAsDirty (fc : FC) : FC :=
  { fc with core := { fc.core with pristine := false } }

/-- `markAsPristine`: set `pristine`, clear `_pendingDirty`. -/
def fcMarkAsPristine (fc : FC) : FC :=
  { fc with core := { fc.core with pristine := true, pendingDirty := false } }

/-- `markAsPending(opts)`. -/
def fcMarkAsPending (opts : Opts) (fc : FC) : FC × List LEv :=
  let fc := { fc with core := { fc.core with status := Status.PENDING } }
  (fc, if opts.emitEvent ≠ some false then [LEv.stat Status.PENDING] else [])

/-- A `FormControlState` box `\x7bvalue, disabled\x7d` or a plain initial
value (`isFormControlState` distinguishes them structurally in the source). -/
inductive FormState where
  | ofValue (v : Value)
  | box (v : Value) (disabled : Bool)

/-- The `value` carried by a `FormState`. -/
def FormState.valueOf : FormState → Value
  | .ofValue v => v
  | .box v _ => v

/-- `_applyFormState(formState)`: a boxed state assigns the value and
disables/enables with `\x7bonlySelf: true, emitEvent: false\x7d`; a plain
value is just assigned (to `value` and `_pendingValue`). -/
def fcApplyFormState (formState : FormState) (fc : FC) : FC :=
  match formState with
  | .box v dis =>
      let fc := { fc with core := { fc.core with value := v }, pendingValue := v }
      if dis then (fcDisable { onlySelf := true, emitEvent := some false } fc).1
      else (fcEnable { onlySelf := true, emitEvent := some false } fc).1
  | .ofValue v =>
      { fc with core := { fc.core with value := v }, pendingValue := v }

/-- The options of the `FormControl` constructor: validators, async
validators, and `initialValueIsDefault`. -/
structure FCOpts where
  validators : RawV := .nothing
  asyncValidators : RawAV := .nothing
  initialValueIsDefault : Bool := false

/-- The `FormControl` constructor: store and compose the validators
(`AbstractControl` constructor), `_applyFormState(formState)`, then
`updateValueAndValidity(\x7bonlySelf: true, emitEvent: !!asyncValidator\x7d)`,
and finally capture `defaultValue` from the initial state when
`initialValueIsDefault` was set.  The status field starts undefined, which
the engine reads as "not DISABLED"; the embedding starts it at VALID. -/
def newFormControl (formState : FormState) (opts : FCOpts) : FC :=
  let d : CData :=
    { value := Value.atom JVal.jnull
      status := Status.VALID
      errors := none
      rawValidators := opts.validators
      composedValidatorFn := coerceToValidator opts.validators
      rawAsyncValidators := opts.asyncValidators
      composedAsyncValidatorFn := coerceToAsyncValidator opts.asyncValidators }
  let fc : FC := { core := d }
  let fc := fcApplyFormState formState fc
  let fc := (fcUvav
    { onlySelf := true,
      emitEvent := some fc.core.composedAsyncValidatorFn.isSome } fc).1
  if opts.initialValueIsDefault then
    { fc with defaultValue := formState.valueOf }
  else fc

/-- `reset(formState = this.defaultValue, options)`: `_applyFormState`,
`markAsPristine(options)`, `markAsUntouched(options)`,
`setValue(this.value, options)`, clear `_pendingChange`. -/
def fcReset (arg : Option FormState) (opts : Opts) (fc : FC) : FC × List LEv :=
  let formState := arg.getD (FormState.ofValue fc.defaultValue)
  let fc := fcApplyFormState formState fc
  let fc := fcMarkAsPristine fc
  let fc := fcMarkAsUntouched fc
  let r := fcSetValue fc.core.value opts fc
  ({ r.1 with pendingChange := false }, r.2)

/-- Validator management lifted to `FC` (these methods live on
`AbstractControl` and touch only the validator fields of `core`). -/
def fcSetValidators (v : RawV) (fc : FC) : FC :=
  { fc with core := setValidatorsC fc.core v }

/-- `setAsyncValidators` on a `FormControl`. -/
def fcSetAsyncValidators (v : RawAV) (fc : FC) : FC :=
  { fc with core := setAsyncValidatorsC fc.core v }

/-- One step of the control's public interface (plus the arrival of an
asynchronous-validation result, the only suspended computation): the
transition relation over which the subscription invariants are proved. -/
inductive FStep : FC → FC → Prop where
  | uvav (opts : Opts) (fc : FC) : FStep fc (fcUvav opts fc).1
  | setValue (v : Value) (opts : Opts) (fc : FC) :
      FStep fc (fcSetValue v opts fc).1
  | patchValue (v : Value) (opts : Opts) (fc : FC) :
      FStep fc (fcPatchValue v opts fc).1
  | reset (arg : Option FormState) (opts : Opts) (fc : FC) :
      FStep fc (fcReset arg opts fc).1
  | disable (opts : Opts) (fc : FC) : FStep fc (fcDisable opts fc).1
  | enable (opts : Opts) (fc : FC) : FStep fc (fcEnable opts fc).1
  | setErrors (errors : Option ErrMap) (opts : Opts) (fc : FC) :
      FStep fc (fcSetErrors errors opts fc).1
  | deliverAsync (i : Nat) (opts : Opts) (fc : FC) :
      FStep fc (fcDeliverAsync i opts fc).1
  | markAsTouched (fc : FC) : FStep fc (fcMarkAsTouched fc)
  | markAsUntouched (fc : FC) : FStep fc (fcMarkAsUntouched fc)
  | markAsDirty (fc : FC) : FStep fc (fcMarkAsDirty fc)
  | markAsPristine (fc : FC) : FStep fc (fcMarkAsPristine fc)
  | markAsPending (opts : Opts) (fc : FC) :
      FStep fc (fcMarkAsPending opts fc).1
  | setValidators (v : RawV) (fc : FC) : FStep fc (fcSetValidators v fc)
  | setAsyncValidators (v : RawAV) (fc : FC) :
      FStep fc (fcSetAsyncValidators v fc)

/-- Well-formedness of the subscription bookkeeping: every live run is the
most recently created subscription (so at most one run is ever outstanding),
and every issued identifier is below the fresh counter. -/
def subsWF (d : CData) : Bool :=
  d.liveSubs.all (fun s => d.asyncValidationSubscription = some s) &&
  d.liveSubs.length ≤ 1 &&
  d.liveSubs.all (fun s => s.id < d.nextSubId) &&
  d.asyncValidationSubscription.all (fun s => s.id < d.nextSubId)

/-! ## The control tree

The concrete composite kinds `FormGroup` and `FormArray` are part of this
repository but their source files are not under src/ (only
src/src/model/abstract_model.ts declares the abstract members
`_forEachChild`, `_anyControls`, `_updateValue`, `_allControlsDisabled`,
`_find` that they implement, and imports them).  Their kind-specific child
observations below are therefore modelled from the spec, as flagged on each
definition.  Everything status- and propagation-related
(`_calculateStatus`, `updateValueAndValidity`, `get`, `getError`,
`hasError`, `assertAllValuesPresent`) is from src. -/

/-- One path segment: a string key (Group child) or an index (Array child). -/
inductive Seg where
  | str (s : String)
  | num (n : Nat)
deriving DecidableEq, Repr

mutual
/-- A control node: its own `AbstractControl` state and its children. -/
inductive Node where
  | ctrl (d : CData) (kids : NKids)
/-- The children of a node: none (a `FormControl`), a keyed mapping (a
`FormGroup`) or an ordered sequence (a `FormArray`). -/
inductive NKids where
  | leaf
  | grp (entries : List (String × Node))
  | arr (items : List Node)
end

/-- The own state of a node. -/
def Node.data : Node → CData
  | .ctrl d _ => d

/-- The children of a node. -/
def Node.kids : Node → NKids
  | .ctrl _ k => k

/-- The children as a list, in registration order. -/
def NKids.childList : NKids → List Node
  | .leaf => []
  | .grp es => es.map Prod.snd
  | .arr items => items

/-- Modelled from the spec: `_anyControls(condition)` of the composite kinds
considers enabled children only (spec invariants 2–3 quantify over "enabled
child"); a leaf has no children, so it is `false`. -/
def NKids.anyEnabledChildHasStatus (k : NKids) (s : Status) : Bool :=
  k.childList.any (fun c => c.data.enabled && c.data.status = s)

/-- Modelled from the spec (invariant 1): `_allControlsDisabled()` — a
composite with at least one enabled child is never DISABLED; a composite
with children is DISABLED iff all of them are; a leaf (or an empty
composite) falls back to its own disabled state. -/
def allControlsDisabledOf (d : CData) (k : NKids) : Bool :=
  match k with
  | .leaf => d.disabled
  | _ => k.childList.all (fun c => c.data.disabled) &&
      (¬ k.childList.isEmpty || d.disabled)

/-- Modelled from the spec (invariant 7 and the `value` doc comment in
abstract_model.ts): `_updateValue()` — a Group's value maps each enabled
child key to the child's value (all children when the group itself is
disabled), an Array's value is the sequence of enabled children's values,
and a leaf keeps its own value. -/
def aggregateValue (allDisabled : Bool) (d : CData) (k : NKids) : Value :=
  match k with
  | .leaf => d.value
  | .grp es => Value.obj ((es.filter
      (fun p => p.2.data.enabled || allDisabled)).map
      (fun p => (p.1, p.2.data.value)))
  | .arr items => Value.arr ((items.filter
      (fun c => c.data.enabled || allDisabled)).map
      (fun c => c.data.value))

/-- `updateValueAndValidity` restricted to one node (`onlySelf` part):
`uvavCore` with the node kind's child observations. -/
def Node.uvavLocal (opts : Opts) : Node → Node × List LEv
  | .ctrl d k =>
      let allDis := allControlsDisabledOf d k
      let r := uvavCore allDis
        (k.anyEnabledChildHasStatus Status.PENDING)
        (k.anyEnabledChildHasStatus Status.INVALID)
        (aggregateValue allDis d k) opts d
      (.ctrl r.1 k, r.2)

/-- Modelled from the spec: `_find(name)` — a string segment addresses a
Group child by key, a numeric segment addresses an Array child by position
(JS coerces a numeric string path segment when indexing an array, and a
number into a key string); a leaf has no children (the abstract base
returns `null`). -/
def Node.findSeg (n : Node) (sg : Seg) : Option Node :=
  match n.kids, sg with
  | .leaf, _ => none
  | .grp es, .str k => (es.find? (fun p => p.1 = k)).map Prod.snd
  | .grp es, .num i => (es.find? (fun p => p.1 = toString i)).map Prod.snd
  | .arr items, .num i => items.get? i
  | .arr items, .str s => s.toNat?.bind (fun i => items.get? i)

/-- Replace the child addressed by a segment (the write counterpart of
`_find`, used to express in-place child mutation on the immutable tree). -/
def Node.setSeg (n : Node) (sg : Seg) (c : Node) : Node :=
  match n, sg with
  | .ctrl d (.grp es), .str k =>
      .ctrl d (.grp (es.map (fun p => if p.1 = k then (p.1, c) else p)))
  | .ctrl d (.grp es), .num i =>
      .ctrl d (.grp (es.map (fun p => if p.1 = toString i then (p.1, c) else p)))
  | .ctrl d (.arr items), .num i => .ctrl d (.arr (items.set i c))
  | .ctrl d (.arr items), .str s =>
      match s.toNat? with
      | some i => .ctrl d (.arr (items.set i c))
      | none => .ctrl d (.arr items)
  | n, _ => n

/-- An emission on the Event Channel of the control at address `addr`
(the path from the root), tagged so that cross-node ordering is visible. -/
inductive Ev where
  | val (addr : List Seg) (v : Value)
  | stat (addr : List Seg) (s : Status)

/-- The address and kind of an event (`true` = `valueChanges`). -/
def Ev.key : Ev → List Seg × Bool
  | .val a _ => (a, true)
  | .stat a _ => (a, false)

/-- Tag a node's own emissions with its address. -/
def tagEvs (addr : List Seg) : List LEv → List Ev :=
  List.map (fun e => match e with
    | .val v => Ev.val addr v
    | .stat s => Ev.stat addr s)

/-- Whether every segment of a path resolves to a child. -/
def Node.canResolve : Node → List Seg → Bool
  | _, [] => true
  | n, sg :: rest =>
      match n.findSeg sg with
      | some c => c.canResolve rest
      | none => false

/-- `updateValueAndValidity(opts)` invoked on the control at `path` inside
the tree `n` (whose own address is `addr`): the control recomputes itself
(`uvavCore`), and then, unless `onlySelf`, its parent runs the same
procedure, up to the root — so the log of an inner node's call is its own
emissions followed by each ancestor's, bottom-up.  Invoking on a path that
does not resolve is not a representable call in the source (there is no
control to call the method on); the embedding returns the tree unchanged. -/
def Node.uvavAt (n : Node) (addr path : List Seg) (opts : Opts) :
    Node × List Ev :=
  match path with
  | [] =>
      let r := n.uvavLocal opts
      (r.1, tagEvs addr r.2)
  | sg :: rest =>
      match n.findSeg sg with
      | none => (n, [])
      | some child =>
          let r := child.uvavAt (addr ++ [sg]) rest opts
          let n1 := n.setSeg sg r.1
          if opts.onlySelf then (n1, r.2)
          else
            let r2 := n1.uvavLocal opts
            (r2.1, r.2 ++ tagEvs addr r2.2)

/-- The own state of the node at a path (for observing whether an ancestor
was recomputed). -/
def Node.dataAt (n : Node) (path : List Seg) : Option CData :=
  match path with
  | [] => some n.data
  | sg :: rest => (n.findSeg sg).bind (fun c => c.dataAt rest)

/-- One step of the `reduce` inside `get`:
`(control, name) => control && control._find(name)`. -/
def getStep : Option Node → Seg → Option Node
  | some c, sg => c.findSeg sg
  | none, _ => none

/-- `get(path)` (src/src/model/abstract_model.ts): `null` for an empty
path, else `reduce((control, name) => control && control._find(name))`. -/
def Node.get (n : Node) (path : List Seg) : Option Node :=
  if path = [] then none
  else path.foldl getStep (some n)

/-- `getError(errorCode, path?)`: look at `this` when no path is supplied,
else at `this.get(path)`; return `control.errors[errorCode]` when the
control and its errors object exist, else `null`. -/
def Node.getErrorAt (code : String) (path : Option (List Seg)) (n : Node) :
    JVal :=
  let control := match path with
    | some p => n.get p
    | none => some n
  match control with
  | some c =>
      match c.data.errors with
      | some em => errGet em code
      | none => JVal.jnull
  | none => JVal.jnull

/-- `hasError(errorCode, path?)` = `!!this.getError(errorCode, path)`. -/
def Node.hasErrorAt (code : String) (path : Option (List Seg)) (n : Node) :
    Bool :=
  (n.getErrorAt code path).truthy

/-- A structural failure thrown by the engine (`RuntimeError` with the
corresponding `RuntimeErrorCode`). -/
inductive FormErr where
  | noControls
  | missingControl (key : String)
  | missingControlValue (key : String)
deriving DecidableEq, Repr

/-- JS `x === undefined`. -/
def Value.isUndef : Value → Bool
  | .atom .undef => true
  | _ => false

/-- `assertAllValuesPresent(control, isGroup, value)` for a Group
(src/src/model/abstract_model.ts): walk the registered children in order and
throw a missing-control-value failure at the first key `k` with
`value[k] === undefined`. -/
def assertAllValuesPresentG (keys : List String)
    (v : List (String × Value)) : Except FormErr Unit :=
  match keys.find? (fun k => (Value.objGet v k).isUndef) with
  | some k => Except.error (FormErr.missingControlValue k)
  | none => Except.ok ()

/-- Assign one child's value and recompute it in place (`setValue` on the
child with `onlySelf: true`).  Modelled from the spec for a composite child:
the recursive distribution of a nested value object to grandchildren is
elided (the child recomputes from its own children instead); a leaf child
is exact. -/
def childAssignValue (c : Node) (newV : Value) (emitEvent : Option Bool) :
    Node × List LEv :=
  match c with
  | .ctrl cd k =>
      Node.uvavLocal { onlySelf := true, emitEvent := emitEvent }
        (.ctrl { cd with value := newV } k)

/-- Modelled from the spec: `FormGroup.setValue(value, options)` (source
file not under src/) — first `assertAllValuesPresent` (from src), throwing
a missing-control-value failure before any child is assigned; then, for
each supplied key in order, `assertControlPresent` and the child's own
`setValue` with `onlySelf: true`; finally one `updateValueAndValidity` on
the group itself.  A thrown failure aborts the call and is not caught. -/
def groupSetValue (d : CData) (es : List (String × Node))
    (v : List (String × Value)) (opts : Opts) :
    Except FormErr (Node × List Ev) :=
  match assertAllValuesPresentG (es.map Prod.fst) v with
  | Except.error e => Except.error e
  | Except.ok _ =>
      let step := fun (acc : Except FormErr (List (String × Node) × List Ev))
          (p : String × Value) =>
        match acc with
        | Except.error e => Except.error e
        | Except.ok (cs, evs) =>
            if cs.isEmpty then Except.error FormErr.noControls
            else
              match cs.find? (fun q => q.1 = p.1) with
              | none => Except.error (FormErr.missingControl p.1)
              | some q0 =>
                  let r := childAssignValue q0.2 p.2 opts.emitEvent
                  Except.ok
                    (cs.map (fun q => if q.1 = p.1 then (q.1, r.1) else q),
                     evs ++ tagEvs [Seg.str p.1] r.2)
      match v.foldl step (Except.ok (es, [])) with
      | Except.error e => Except.error e
      | Except.ok (cs, evs) =>
          let r := Node.uvavLocal opts (.ctrl d (.grp cs))
          Except.ok (r.1, evs ++ tagEvs [] r.2)

/-- JS array read `value[i]`: `undefined` when the index is out of range. -/
def Value.arrGet (items : List Value) (i : Nat) : Value :=
  (items.get? i).getD (Value.atom JVal.undef)

/-- `assertAllValuesPresent(control, isGroup, value)` for an Array
(src/src/model/abstract_model.ts): `_forEachChild` supplies each child's
index as its key, so walk the indices `0..count-1` in order and throw a
missing-control-value failure at the first index `i` with
`value[i] === undefined` (in particular whenever the supplied array is
shorter than the child list). -/
def assertAllValuesPresentA (count : Nat) (v : List Value) :
    Except FormErr Unit :=
  match (List.range count).find? (fun i => (Value.arrGet v i).isUndef) with
  | some i => Except.error (FormErr.missingControlValue (toString i))
  | none => Except.ok ()

/-- Modelled from the spec: `FormArray.setValue(value, options)` (source
file not under src/) — first `assertAllValuesPresent` (from src), throwing
a missing-control-value failure before any child is assigned; then, for
each supplied position in order, `assertControlPresent` and the child's own
`setValue` with `onlySelf: true`; finally one `updateValueAndValidity` on
the array itself.  A thrown failure aborts the call and is not caught. -/
def arraySetValue (d : CData) (items : List Node) (v : List Value)
    (opts : Opts) : Except FormErr (Node × List Ev) :=
  match assertAllValuesPresentA items.length v with
  | Except.error e => Except.error e
  | Except.ok _ =>
      let step := fun (acc : Except FormErr (List Node × List Ev))
          (p : Nat × Value) =>
        match acc with
        | Except.error e => Except.error e
        | Except.ok (cs, evs) =>
            if cs.isEmpty then Except.error FormErr.noControls
            else
              match cs.get? p.1 with
              | none => Except.error (FormErr.missingControl (toString p.1))
              | some c =>
                  let r := childAssignValue c p.2 opts.emitEvent
                  Except.ok
                    (cs.set p.1 r.1, evs ++ tagEvs [Seg.num p.1] r.2)
      match v.enum.foldl step (Except.ok (items, [])) with
      | Except.error e => Except.error e
      | Except.ok (cs, evs) =>
          let r := Node.uvavLocal opts (.ctrl d (.arr cs))
          Except.ok (r.1, evs ++ tagEvs [] r.2)

/-! ## Helper lemmas -/

@[simp] theorem cancel_value (d : CData) :
    (cancelExistingSubscription d).value = d.value := by
  unfold cancelExistingSubscription; split <;> rfl

@[simp] theorem cancel_status (d : CData) :
    (cancelExistingSubscription d).status = d.status := by
  unfold cancelExistingSubscription; split <;> rfl

@[simp] theorem cancel_errors (d : CData) :
    (cancelExistingSubscription d).errors = d.errors := by
  unfold cancelExistingSubscription; split <;> rfl

@[simp] theorem cancel_pristine (d : CData) :
    (cancelExistingSubscription d).pristine = d.pristine := by
  unfold cancelExistingSubscription; split <;> rfl

@[simp] theorem cancel_touched (d : CData) :
    (cancelExistingSubscription d).touched = d.touched := by
  unfold cancelExistingSubscription; split <;> rfl

@[simp] theorem cancel_composed (d : CData) :
    (cancelExistingSubscription d).composedValidatorFn
      = d.composedValidatorFn := by
  unfold cancelExistingSubscription; split <;> rfl

@[simp] theorem cancel_composedAsync (d : CData) :
    (cancelExistingSubscription d).composedAsyncValidatorFn
      = d.composedAsyncValidatorFn := by
  unfold cancelExistingSubscription; split <;> rfl

@[simp] theorem cancel_nextSubId (d : CData) :
    (cancelExistingSubscription d).nextSubId = d.nextSubId := by
  unfold cancelExistingSubscription; split <;> rfl

@[simp] theorem runAsync_value (d : CData) :
    (runAsyncValidatorC d).value = d.value := by
  unfold runAsyncValidatorC; split <;> rfl

@[simp] theorem runAsync_errors (d : CData) :
    (runAsyncValidatorC d).errors = d.errors := by
  unfold runAsyncValidatorC; split <;> rfl

@[simp] theorem runAsync_pristine (d : CData) :
    (runAsyncValidatorC d).pristine = d.pristine := by
  unfold runAsyncValidatorC; split <;> rfl

@[simp] theorem runAsync_touched (d : CData) :
    (runAsyncValidatorC d).touched = d.touched := by
  unfold runAsyncValidatorC; split <;> rfl

@[simp] theorem setInitialStatus_value (aD : Bool) (d : CData) :
    (setInitialStatus aD d).value = d.value := rfl

@[simp] theorem setInitialStatus_errors (aD : Bool) (d : CData) :
    (setInitialStatus aD d).errors = d.errors := rfl

@[simp] theorem setInitialStatus_pristine (aD : Bool) (d : CData) :
    (setInitialStatus aD d).pristine = d.pristine := rfl

@[simp] theorem setInitialStatus_touched (aD : Bool) (d : CData) :
    (setInitialStatus aD d).touched = d.touched := rfl

@[simp] theorem uvavEnabledStep_value (aD aP aI : Bool) (d : CData) :
    (uvavEnabledStep aD aP aI d).value = d.value := by
  unfold uvavEnabledStep
  dsimp only
  split <;> simp

@[simp] theorem uvavEnabledStep_pristine (aD aP aI : Bool) (d : CData) :
    (uvavEnabledStep aD aP aI d).pristine = d.pristine := by
  unfold uvavEnabledStep
  dsimp only
  split <;> simp

@[simp] theorem uvavEnabledStep_touched (aD aP aI : Bool) (d : CData) :
    (uvavEnabledStep aD aP aI d).touched = d.touched := by
  unfold uvavEnabledStep
  dsimp only
  split <;> simp

theorem uvavCore_value (aD aP aI : Bool) (nv : Value) (o : Opts) (d : CData) :
    ((uvavCore aD aP aI nv o d).1).value = nv := by
  unfold uvavCore
  dsimp only
  split
  · simp
  · rfl

theorem uvavCore_pristine (aD aP aI : Bool) (nv : Value) (o : Opts)
    (d : CData) : ((uvavCore aD aP aI nv o d).1).pristine = d.pristine := by
  unfold uvavCore
  dsimp only
  split
  · simp
  · rfl

theorem uvavCore_touched (aD aP aI : Bool) (nv : Value) (o : Opts)
    (d : CData) : ((uvavCore aD aP aI nv o d).1).touched = d.touched := by
  unfold uvavCore
  dsimp only
  split
  · simp
  · rfl

@[simp] theorem fcUvav_value (o : Opts) (fc : FC) :
    ((fcUvav o fc).1).core.value = fc.core.value := by
  simp [fcUvav, uvavCore_value]

@[simp] theorem fcUvav_pristine (o : Opts) (fc : FC) :
    ((fcUvav o fc).1).core.pristine = fc.core.pristine := by
  simp [fcUvav, uvavCore_pristine]

@[simp] theorem fcUvav_touched (o : Opts) (fc : FC) :
    ((fcUvav o fc).1).core.touched = fc.core.touched := by
  simp [fcUvav, uvavCore_touched]

@[simp] theorem fcUvav_defaultValue (o : Opts) (fc : FC) :
    ((fcUvav o fc).1).defaultValue = fc.defaultValue := rfl

theorem fcSetValue_value (v : Value) (o : Opts) (fc : FC) :
    ((fcSetValue v o fc).1).core.value = v := by
  simp [fcSetValue]

theorem fcApplyFormState_value (fs : FormState) (fc : FC) :
    (fcApplyFormState fs fc).core.value = fs.valueOf := by
  cases fs with
  | ofValue v => rfl
  | box v dis =>
      cases dis with
      | true => rfl
      | false => simp [fcApplyFormState, fcEnable, FormState.valueOf]

theorem fcApplyFormState_pristine (fs : FormState) (fc : FC) :
    (fcApplyFormState fs fc).core.pristine = fc.core.pristine := by
  cases fs with
  | ofValue v => rfl
  | box v dis =>
      cases dis with
      | true => rfl
      | false => simp [fcApplyFormState, fcEnable]

theorem fcApplyFormState_touched (fs : FormState) (fc : FC) :
    (fcApplyFormState fs fc).core.touched = fc.core.touched := by
  cases fs with
  | ofValue v => rfl
  | box v dis =>
      cases dis with
      | true => rfl
      | false => simp [fcApplyFormState, fcEnable]

theorem fcApplyFormState_defaultValue (fs : FormState) (fc : FC) :
    (fcApplyFormState fs fc).defaultValue = fc.defaultValue := by
  cases fs with
  | ofValue v => rfl
  | box v dis => cases dis with
      | true => rfl
      | false => rfl

/-- What `reset` does to value, pristine and touched, for any argument. -/
theorem fcReset_spec (arg : Option FormState) (ropts : Opts) (fc : FC) :
    ((fcReset arg ropts fc).1).core.value =
      (arg.getD (FormState.ofValue fc.defaultValue)).valueOf ∧
    ((fcReset arg ropts fc).1).core.pristine = true ∧
    ((fcReset arg ropts fc).1).core.touched = false := by
  unfold fcReset
  refine ⟨?_, ?_, ?_⟩
  · rw [show ∀ p : FC × List LEv, ({ p.1 with pendingChange := false } : FC).core
        = p.1.core from fun p => rfl]
    rw [fcSetValue_value]
    exact fcApplyFormState_value _ _
  · rw [show ∀ p : FC × List LEv, ({ p.1 with pendingChange := false } : FC).core
        = p.1.core from fun p => rfl]
    simp [fcSetValue, fcMarkAsPristine, fcMarkAsUntouched]
  · rw [show ∀ p : FC × List LEv, ({ p.1 with pendingChange := false } : FC).core
        = p.1.core from fun p => rfl]
    simp [fcSetValue, fcMarkAsPristine, fcMarkAsUntouched]

/-- The `defaultValue` captured at construction. -/
theorem newFormControl_defaultValue (init : FormState) (co : FCOpts) :
    (newFormControl init co).defaultValue =
      (if co.initialValueIsDefault then init.valueOf
       else Value.atom JVal.jnull) := by
  unfold newFormControl
  split
  · rfl
  · rw [fcUvav_defaultValue, fcApplyFormState_defaultValue]

/-! ## Claims -/

/-- C7: for every leaf control, `reset(v)` sets the value to `v` when `v` is
provided, and otherwise to the control's default value — the
construction-time initial value when `initialValueIsDefault` was set, else
`null` — and leaves the control pristine and untouched. -/
theorem C7_reset_restores_default :
    (∀ (fc : FC) (fs : FormState) (ropts : Opts),
      ((fcReset (some fs) ropts fc).1).core.value = fs.valueOf ∧
      ((fcReset (some fs) ropts fc).1).core.pristine = true ∧
      ((fcReset (some fs) ropts fc).1).core.touched = false) ∧
    (∀ (init : FormState) (co : FCOpts) (ropts : Opts),
      ((fcReset none ropts (newFormControl init co)).1).core.value =
        (if co.initialValueIsDefault then init.valueOf
         else Value.atom JVal.jnull) ∧
      ((fcReset none ropts (newFormControl init co)).1).core.pristine = true ∧
      ((fcReset none ropts (newFormControl init co)).1).core.touched
        = false) := by
  constructor
  · intro fc fs ropts
    exact fcReset_spec (some fs) ropts fc
  · intro init co ropts
    have h := fcReset_spec none ropts (newFormControl init co)
    refine ⟨?_, h.2.1, h.2.2⟩
    rw [h.1, Option.getD_none, FormState.valueOf,
      newFormControl_defaultValue]

/-- C10: for a control whose errors map records a falsy detail under a key,
`hasError` of that key is `false` (it tests truthiness of the stored
detail) while `getError` still returns the falsy detail itself. -/
theorem C10_hasError_tests_truthiness (d : CData) (k : NKids) (em : ErrMap)
    (code : String) (v : JVal)
    (he : d.errors = some em) (hv : errGet em code = v)
    (hf : v.truthy = false) :
    Node.hasErrorAt code none (Node.ctrl d k) = false ∧
    Node.getErrorAt code none (Node.ctrl d k) = v := by
  have hg : Node.getErrorAt code none (Node.ctrl d k) = v := by
    simp [Node.getErrorAt, Node.data, he, hv]
  exact ⟨by simp [Node.hasErrorAt, hg, hf], hg⟩

/-- A control whose `required` error detail is the falsy number `0`. -/
def c10ctl : Node := Node.ctrl
  { value := Value.atom JVal.jnull, status := Status.INVALID,
    errors := some [("min", JVal.num 0), ("other", JVal.bool true)] }
  NKids.leaf

/-- C10 witness: `errors = \x7bmin: 0\x7d` gives `hasError("min") = false`
while `getError("min") = 0`. -/
theorem C10_witness :
    Node.hasErrorAt "min" none c10ctl = false ∧
    Node.getErrorAt "min" none c10ctl = JVal.num 0 :=
  C10_hasError_tests_truthiness _ _ _ _ _ rfl rfl rfl

/-- The frame of the validator-management operations: every field of the
control other than the raw/composed validator bookkeeping is untouched. -/
def valFrameOK (d e : CData) : Prop :=
  e.value = d.value ∧ e.errors = d.errors ∧ e.status = d.status ∧
  e.pristine = d.pristine ∧ e.touched = d.touched ∧
  e.liveSubs = d.liveSubs ∧
  e.hasOwnPendingAsyncValidator = d.hasOwnPendingAsyncValidator ∧
  e.asyncValidationSubscription = d.asyncValidationSubscription

/-- C5: `setValidators`, `setAsyncValidators`, `addValidators`,
`removeValidators` and the async equivalents replace only the stored raw
validators and the composed validator function; value, errors, status,
pristine, touched (and the async-run bookkeeping) are unchanged, and no
validation runs until `updateValueAndValidity` is invoked. -/
theorem C5_validator_management_frame (d : CData) (v : RawV) (av : RawAV)
    (ns os : List VFn) (nas oas : List AVFn) :
    (valFrameOK d (setValidatorsC d v) ∧
      (setValidatorsC d v).rawValidators = v ∧
      (setValidatorsC d v).composedValidatorFn = coerceToValidator v) ∧
    (valFrameOK d (setAsyncValidatorsC d av) ∧
      (setAsyncValidatorsC d av).rawAsyncValidators = av ∧
      (setAsyncValidatorsC d av).composedAsyncValidatorFn
        = coerceToAsyncValidator av) ∧
    valFrameOK d (addValidatorsC d ns) ∧
    valFrameOK d (removeValidatorsC d os) ∧
    valFrameOK d (addAsyncValidatorsC d nas) ∧
    valFrameOK d (removeAsyncValidatorsC d oas) :=
  ⟨⟨⟨rfl, rfl, rfl, rfl, rfl, rfl, rfl, rfl⟩, rfl, rfl⟩,
   ⟨⟨rfl, rfl, rfl, rfl, rfl, rfl, rfl, rfl⟩, rfl, rfl⟩,
   ⟨rfl, rfl, rfl, rfl, rfl, rfl, rfl, rfl⟩,
   ⟨rfl, rfl, rfl, rfl, rfl, rfl, rfl, rfl⟩,
   ⟨rfl, rfl, rfl, rfl, rfl, rfl, rfl, rfl⟩,
   ⟨rfl, rfl, rfl, rfl, rfl, rfl, rfl, rfl⟩⟩

/-- An asynchronous validator that reports every value as taken. -/
def takenAV : AVFn := ⟨5, fun _ => some [("taken", JVal.bool true)]⟩

/-- A control constructed with an asynchronous validator; construction
starts the first async run (subscription id 0). -/
def asyncCtl : FC :=
  newFormControl (FormState.ofValue (Value.atom (JVal.str "a")))
    { asyncValidators := RawAV.single takenAV }

/-- A plain control with no validators. -/
def plainCtl : FC :=
  newFormControl (FormState.ofValue (Value.atom (JVal.str "a"))) {}

/-- The disabled state of `plainCtl`. -/
def disabledCtl : FC := (fcDisable {} plainCtl).1

/-- C6 counterexample: `setErrors` on a DISABLED control records a
non-empty errors map while the status stays DISABLED, so a later event can
make a DISABLED control's errors non-empty; the claimed invariant fails. -/
theorem C6_counterexample :
    disabledCtl.core.status = Status.DISABLED ∧
    disabledCtl.core.errors = none ∧
    ((fcSetErrors (some [("server", JVal.bool true)]) {} disabledCtl).1).core.errors
      = some [("server", JVal.bool true)] ∧
    ((fcSetErrors (some [("server", JVal.bool true)]) {} disabledCtl).1).core.status
      = Status.DISABLED := ⟨rfl, rfl, rfl, rfl⟩

/-- The specification of path resolution: every segment of the (nonempty)
path resolves through `_find` to the next descendant, and the whole path
leads to `c`. -/
inductive ResolvesTo : Node → List Seg → Node → Prop where
  | last (n c : Node) (sg : Seg) :
      n.findSeg sg = some c → ResolvesTo n [sg] c
  | step (n m c : Node) (sg : Seg) (p : List Seg) :
      n.findSeg sg = some m → ResolvesTo m p c → ResolvesTo n (sg :: p) c

theorem resolvesTo_nil (n c : Node) : ¬ ResolvesTo n [] c := by
  intro h; cases h

theorem foldl_getStep_none (p : List Seg) :
    p.foldl getStep none = none := by
  induction p with
  | nil => rfl
  | cons sg rest ih => simpa [getStep] using ih

theorem foldl_getStep_some_iff (p : List Seg) :
    ∀ (n c : Node), p.foldl getStep (some n) = some c ↔
      ((p = [] ∧ n = c) ∨ ResolvesTo n p c) := by
  induction p with
  | nil =>
      intro n c
      constructor
      · intro h
        exact Or.inl ⟨rfl, by simpa using h⟩
      · rintro (⟨-, rfl⟩ | h)
        · rfl
        · exact absurd h (resolvesTo_nil n c)
  | cons sg rest ih =>
      intro n c
      have hstep : (sg :: rest).foldl getStep (some n)
          = rest.foldl getStep (n.findSeg sg) := rfl
      rw [hstep]
      cases hf : n.findSeg sg with
      | none =>
          rw [foldl_getStep_none]
          constructor
          · intro h; cases h
          · rintro (⟨h, -⟩ | h)
            · cases h
            · cases h with
              | last _ _ _ hf2 => rw [hf] at hf2; cases hf2
              | step _ m _ _ _ hf2 _ => rw [hf] at hf2; cases hf2
      | some m =>
          rw [ih m c]
          constructor
          · rintro (⟨rfl, rfl⟩ | h)
            · exact Or.inr (ResolvesTo.last _ _ _ hf)
            · exact Or.inr (ResolvesTo.step _ _ _ _ _ hf h)
          · rintro (⟨h, -⟩ | h)
            · cases h
            · cases h with
              | last _ _ _ hf2 =>
                  rw [hf] at hf2
                  exact Or.inl ⟨rfl, by injection hf2⟩
              | step _ m2 _ _ _ hf2 h2 =>
                  rw [hf] at hf2
                  injection hf2 with hm
                  subst hm
                  exact Or.inr h2

/-- C8: `get(path)` returns the descendant control exactly when every
segment resolves, and `null` on an empty path or when any segment is
missing; `getError`/`hasError` return `null`/`false` whenever the path does
not resolve or the resolved control has no errors object. -/
theorem C8_get_path_resolution :
    (∀ n : Node, n.get [] = none) ∧
    (∀ (n c : Node) (path : List Seg),
      n.get path = some c ↔ ResolvesTo n path c) ∧
    (∀ (n : Node) (path : List Seg) (code : String),
      n.get path = none →
      Node.getErrorAt code (some path) n = JVal.jnull ∧
      Node.hasErrorAt code (some path) n = false) ∧
    (∀ (n c : Node) (path : List Seg) (code : String),
      n.get path = some c → c.data.errors = none →
      Node.getErrorAt code (some path) n = JVal.jnull ∧
      Node.hasErrorAt code (some path) n = false) := by
  have hget : ∀ (n c : Node) (path : List Seg),
      n.get path = some c ↔ ResolvesTo n path c := by
    intro n c path
    unfold Node.get
    by_cases hp : path = []
    · subst hp
      simp only [if_pos rfl]
      constructor
      · intro h; cases h
      · intro h; exact absurd h (resolvesTo_nil n c)
    · rw [if_neg hp, foldl_getStep_some_iff]
      constructor
      · rintro (⟨h, -⟩ | h)
        · exact absurd h hp
        · exact h
      · exact Or.inr
  refine ⟨fun n => by simp [Node.get], hget, ?_, ?_⟩
  · intro n path code hnone
    have hj : Node.getErrorAt code (some path) n = JVal.jnull := by
      simp [Node.getErrorAt, hnone]
    exact ⟨hj, by simp [Node.hasErrorAt, hj, JVal.truthy]⟩
  · intro n c path code hsome herr
    have hj : Node.getErrorAt code (some path) n = JVal.jnull := by
      simp [Node.getErrorAt, hsome, herr]
    exact ⟨hj, by simp [Node.hasErrorAt, hj, JVal.truthy]⟩

/-- The innermost control of the witness tree for path resolution. -/
def c8leaf : Node := Node.ctrl
  { value := Value.atom (JVal.num 2), status := Status.VALID, errors := none }
  NKids.leaf

/-- A group containing an array containing `c8leaf`. -/
def c8tree : Node := Node.ctrl
  { value := Value.obj [], status := Status.VALID, errors := none }
  (NKids.grp [("a", Node.ctrl
    { value := Value.arr [], status := Status.VALID, errors := none }
    (NKids.arr [c8leaf]))])

/-- C8 witness: `get(["a", 0])` resolves to the leaf; a missing key gives
`null`/`false` from `getError`/`hasError`, as does a resolved control
without errors. -/
theorem C8_witness :
    ResolvesTo c8tree [Seg.str "a", Seg.num 0] c8leaf ∧
    (Node.getErrorAt "req" (some [Seg.str "zz"]) c8tree = JVal.jnull ∧
     Node.hasErrorAt "req" (some [Seg.str "zz"]) c8tree = false) ∧
    (Node.getErrorAt "req" (some [Seg.str "a", Seg.num 0]) c8tree
        = JVal.jnull ∧
     Node.hasErrorAt "req" (some [Seg.str "a", Seg.num 0]) c8tree = false) :=
  ⟨(C8_get_path_resolution.2.1 c8tree c8leaf [Seg.str "a", Seg.num 0]).mp rfl,
   C8_get_path_resolution.2.2.1 c8tree [Seg.str "zz"] "req" rfl,
   C8_get_path_resolution.2.2.2 c8tree c8leaf [Seg.str "a", Seg.num 0]
     "req" rfl rfl⟩

/-- C9: `setValue` on a composite (Group or Array) whose value lacks an
entry for some registered child key — the value is `undefined` for a
registered Group key, or for an Array index (in particular a too-short
input array) — fails with a missing-control-value structural failure,
thrown synchronously before any child value is assigned and not caught
internally. -/
theorem C9_composite_setValue_missing_value :
    (∀ (d : CData) (es : List (String × Node))
      (v : List (String × Value)) (opts : Opts),
      (∃ k ∈ es.map Prod.fst, (Value.objGet v k).isUndef = true) →
      ∃ k, groupSetValue d es v opts
          = Except.error (FormErr.missingControlValue k) ∧
        (Value.objGet v k).isUndef = true ∧ k ∈ es.map Prod.fst) ∧
    (∀ (d : CData) (items : List Node) (v : List Value) (opts : Opts),
      (∃ i, i < items.length ∧ (Value.arrGet v i).isUndef = true) →
      ∃ i, i < items.length ∧
        arraySetValue d items v opts
          = Except.error (FormErr.missingControlValue (toString i)) ∧
        (Value.arrGet v i).isUndef = true) := by
  constructor
  · intro d es v opts h
    have hsome : ((es.map Prod.fst).find?
        (fun k => (Value.objGet v k).isUndef)).isSome := by
      rw [List.find?_isSome]
      obtain ⟨k, hk, hu⟩ := h
      exact ⟨k, hk, by simpa using hu⟩
    obtain ⟨k0, hk0⟩ := Option.isSome_iff_exists.mp hsome
    refine ⟨k0, ?_, ?_, List.mem_of_find?_eq_some hk0⟩
    · unfold groupSetValue assertAllValuesPresentG
      rw [hk0]
    · simpa using List.find?_some hk0
  · intro d items v opts h
    have hsome : ((List.range items.length).find?
        (fun i => (Value.arrGet v i).isUndef)).isSome := by
      rw [List.find?_isSome]
      obtain ⟨i, hi, hu⟩ := h
      exact ⟨i, List.mem_range.mpr hi, by simpa using hu⟩
    obtain ⟨i0, hi0⟩ := Option.isSome_iff_exists.mp hsome
    refine ⟨i0, List.mem_range.mp (List.mem_of_find?_eq_some hi0), ?_, ?_⟩
    · unfold arraySetValue assertAllValuesPresentA
      rw [hi0]
    · simpa using List.find?_some hi0

/-- A two-child group used as the C9 witness. -/
def c9kids : List (String × Node) :=
  [("name", Node.ctrl
      { value := Value.atom (JVal.str ""), status := Status.VALID,
        errors := none } NKids.leaf),
   ("age", Node.ctrl
      { value := Value.atom (JVal.num 5), status := Status.VALID,
        errors := none } NKids.leaf)]

/-- A two-child array used as the C9 witness. -/
def c9items : List Node :=
  [Node.ctrl
      { value := Value.atom (JVal.num 1), status := Status.VALID,
        errors := none } NKids.leaf,
   Node.ctrl
      { value := Value.atom (JVal.num 2), status := Status.VALID,
        errors := none } NKids.leaf]

/-- C9 witness: `setValue(\x7bname: "x"\x7d)` on a group with children
`name` and `age`, and `setValue([7])` on a two-element array, both fail
with a missing-control-value failure. -/
theorem C9_witness :
    (∃ k, groupSetValue
        { value := Value.obj [], status := Status.VALID, errors := none }
        c9kids [("name", Value.atom (JVal.str "x"))] {}
        = Except.error (FormErr.missingControlValue k) ∧
      (Value.objGet [("name", Value.atom (JVal.str "x"))] k).isUndef = true ∧
      k ∈ c9kids.map Prod.fst) ∧
    (∃ i, i < c9items.length ∧
      arraySetValue
        { value := Value.arr [], status := Status.VALID, errors := none }
        c9items [Value.atom (JVal.num 7)] {}
        = Except.error (FormErr.missingControlValue (toString i)) ∧
      (Value.arrGet [Value.atom (JVal.num 7)] i).isUndef = true) :=
  ⟨C9_composite_setValue_missing_value.1 _ _ _ _
      ⟨"age", by simp [c9kids], rfl⟩,
   C9_composite_setValue_missing_value.2 _ _ _ _
      ⟨1, by simp [c9items], rfl⟩⟩

/-- Whether an errors field holds a non-empty map (the spec's
"errors is non-empty"); `null` and the present-but-empty map both fail. -/
def errsNonEmpty : Option ErrMap → Bool
  | some (_ :: _) => true
  | _ => false

/-- The status derivation as the code computes it, as a relation between a
control's own post-state and the observations of its children:
INVALID iff enabled and (the errors field is non-null, or no own pending
async run, no enabled PENDING child, and some enabled INVALID child);
PENDING iff enabled, errors null, and (own pending async run or some
enabled PENDING child); an enabled control that is neither is VALID. -/
def statusObsOK (e : CData) (aP aI : Bool) : Prop :=
  ((e.status = Status.INVALID) ↔
    (e.status ≠ Status.DISABLED ∧
      (e.errors.isSome = true ∨
        (e.hasOwnPendingAsyncValidator = false ∧ aP = false ∧ aI = true)))) ∧
  ((e.status = Status.PENDING) ↔
    (e.status ≠ Status.DISABLED ∧ e.errors = none ∧
      (e.hasOwnPendingAsyncValidator = true ∨ aP = true))) ∧
  ((e.status ≠ Status.DISABLED ∧ e.status ≠ Status.INVALID ∧
    e.status ≠ Status.PENDING) → e.status = Status.VALID)

theorem uvavEnabledStep_derivation (aP aI : Bool) (d : CData) :
    statusObsOK (uvavEnabledStep false aP aI d) aP aI := by
  unfold uvavEnabledStep
  dsimp only
  generalize cancelExistingSubscription d = d1
  cases hre : runValidatorC d1 with
  | some em =>
      simp [calculateStatus, hre, statusObsOK]
  | none =>
      cases hb : d1.hasOwnPendingAsyncValidator with
      | true =>
          cases hca : d1.composedAsyncValidatorFn with
          | some av =>
              simp [calculateStatus, hre, hb, statusObsOK,
                runAsyncValidatorC, hca]
          | none =>
              simp [calculateStatus, hre, hb, statusObsOK,
                runAsyncValidatorC, hca]
      | false =>
          cases aP with
          | true =>
              cases hca : d1.composedAsyncValidatorFn with
              | some av =>
                  simp [calculateStatus, hre, hb, statusObsOK,
                    runAsyncValidatorC, hca]
              | none =>
                  simp [calculateStatus, hre, hb, statusObsOK,
                    runAsyncValidatorC, hca]
          | false =>
              cases aI with
              | true =>
                  simp [calculateStatus, hre, hb, statusObsOK,
                    runAsyncValidatorC]
              | false =>
                  cases hca : d1.composedAsyncValidatorFn with
                  | some av =>
                      simp [calculateStatus, hre, hb, statusObsOK,
                        runAsyncValidatorC, hca]
                  | none =>
                      simp [calculateStatus, hre, hb, statusObsOK,
                        runAsyncValidatorC, hca]

/-- The claim's status derivation, literally: INVALID iff enabled and
(errors map non-empty or some enabled child INVALID); PENDING iff enabled,
not INVALID, and (own async outstanding or some enabled child PENDING);
enabled and neither INVALID nor PENDING means VALID. -/
def specStatusDerivation (n : Node) : Prop :=
  ((n.data.status = Status.INVALID) ↔
    (n.data.status ≠ Status.DISABLED ∧
      (errsNonEmpty n.data.errors = true ∨
        n.kids.anyEnabledChildHasStatus Status.INVALID = true))) ∧
  ((n.data.status = Status.PENDING) ↔
    (n.data.status ≠ Status.DISABLED ∧ n.data.status ≠ Status.INVALID ∧
      (n.data.hasOwnPendingAsyncValidator = true ∨
       n.kids.anyEnabledChildHasStatus Status.PENDING = true))) ∧
  ((n.data.status ≠ Status.DISABLED ∧ n.data.status ≠ Status.INVALID ∧
    n.data.status ≠ Status.PENDING) → n.data.status = Status.VALID)

/-- The code's status derivation, read off a node and its children. -/
def codeStatusDerivation (n : Node) : Prop :=
  statusObsOK n.data (n.kids.anyEnabledChildHasStatus Status.PENDING)
    (n.kids.anyEnabledChildHasStatus Status.INVALID)

/-- A leaf whose own async validation is outstanding (status PENDING). -/
def c1pendChild : Node := Node.ctrl
  { value := Value.atom (JVal.str "a"), status := Status.PENDING,
    errors := none, hasOwnPendingAsyncValidator := true } NKids.leaf

/-- A leaf that failed synchronous validation (status INVALID). -/
def c1invChild : Node := Node.ctrl
  { value := Value.atom (JVal.str "b"), status := Status.INVALID,
    errors := some [("req", JVal.bool true)] } NKids.leaf

/-- A group with one PENDING child and one INVALID child. -/
def c1parent : Node := Node.ctrl
  { value := Value.obj [], status := Status.VALID, errors := none }
  (NKids.grp [("a", c1pendChild), ("b", c1invChild)])

/-- A control constructed with a single synchronous validator that returns
a present-but-empty errors object (truthy in JS). -/
def emptyErrCtl : FC :=
  newFormControl (FormState.ofValue (Value.atom (JVal.str "x")))
    { validators := RawV.single ⟨1, fun _ => some []⟩ }

/-- C1 counterexample: after `updateValueAndValidity` on a group with an
enabled PENDING child and an enabled INVALID child, the status is PENDING
although the claim's derivation demands INVALID; and a control whose
validator returned an empty errors object is INVALID although its errors
map is empty and it has no INVALID child. -/
theorem C1_counterexample :
    (¬ specStatusDerivation ((Node.uvavLocal {} c1parent).1)) ∧
    ((Node.uvavLocal {} c1parent).1.data.status = Status.PENDING) ∧
    ((Node.uvavLocal {} c1parent).1.kids.anyEnabledChildHasStatus
      Status.INVALID = true) ∧
    (¬ specStatusDerivation (Node.ctrl emptyErrCtl.core NKids.leaf)) ∧
    (emptyErrCtl.core.status = Status.INVALID) ∧
    (emptyErrCtl.core.errors = some []) := by
  refine ⟨?_, rfl, rfl, ?_, rfl, rfl⟩
  · intro h
    exact absurd ((h.1).mpr (by decide)) (by decide)
  · intro h
    exact absurd ((h.1).mp rfl) (by decide)

/-- C1 (amended): immediately after `updateValueAndValidity` recomputes a
control, its status satisfies the code's derivation: INVALID iff the
control is enabled and (its errors field is non-null — even a present but
empty map — or it has no outstanding own async validation, no enabled
PENDING child, and at least one enabled INVALID child); PENDING iff
enabled, errors null, and (own async validation outstanding or some
enabled child PENDING); an enabled control that is neither is VALID. -/
theorem C1_amended_status_derivation (d : CData) (k : NKids) (opts : Opts) :
    codeStatusDerivation ((Node.uvavLocal opts (Node.ctrl d k)).1) := by
  unfold Node.uvavLocal codeStatusDerivation
  dsimp only [Node.data, Node.kids]
  by_cases haD : allControlsDisabledOf d k = true
  · simp [uvavCore, setInitialStatus, haD, CData.enabled, statusObsOK]
  · have haD' : allControlsDisabledOf d k = false := by
      simpa using haD
    simp [uvavCore, setInitialStatus, haD', CData.enabled]
    exact uvavEnabledStep_derivation _ _ _

/-- The expected key sequence of the emissions of one
`updateValueAndValidity` call on the control at `path` inside a tree rooted
at address `addr`: the invoked control emits `valueChanges` then
`statusChanges`, and then each ancestor in bottom-up order does the same
(none when `onlySelf`). -/
def expectedKeys (addr path : List Seg) (onlySelf : Bool) :
    List (List Seg × Bool) :=
  match path with
  | [] => [(addr, true), (addr, false)]
  | sg :: rest =>
      expectedKeys (addr ++ [sg]) rest onlySelf ++
      (if onlySelf then [] else [(addr, true), (addr, false)])

theorem uvavLocal_evs_emitFalse (opts : Opts) (n : Node)
    (h : opts.emitEvent = some false) : (Node.uvavLocal opts n).2 = [] := by
  cases n
  simp [Node.uvavLocal, uvavCore, h]

theorem uvavLocal_evs_emitTrue (opts : Opts) (n : Node)
    (h : opts.emitEvent ≠ some false) :
    ∃ v s, (Node.uvavLocal opts n).2 = [LEv.val v, LEv.stat s] := by
  cases n
  simp [Node.uvavLocal, uvavCore, h]

theorem uvavAt_emitFalse (opts : Opts) (h : opts.emitEvent = some false) :
    ∀ (path : List Seg) (n : Node) (addr : List Seg),
      (n.uvavAt addr path opts).2 = [] := by
  intro path
  induction path with
  | nil =>
      intro n addr
      simp [Node.uvavAt, uvavLocal_evs_emitFalse opts n h, tagEvs]
  | cons sg rest ih =>
      intro n addr
      unfold Node.uvavAt
      cases hf : n.findSeg sg with
      | none => rfl
      | some c =>
          dsimp only
          split
          · exact ih c (addr ++ [sg])
          · rw [ih c (addr ++ [sg]),
              uvavLocal_evs_emitFalse opts _ h]
            rfl

theorem uvavAt_keys (opts : Opts) (h : opts.emitEvent ≠ some false) :
    ∀ (path : List Seg) (n : Node) (addr : List Seg),
      n.canResolve path = true →
      ((n.uvavAt addr path opts).2).map Ev.key
        = expectedKeys addr path opts.onlySelf := by
  intro path
  induction path with
  | nil =>
      intro n addr hres
      obtain ⟨v, s, hev⟩ := uvavLocal_evs_emitTrue opts n h
      simp [Node.uvavAt, hev, tagEvs, Ev.key, expectedKeys]
  | cons sg rest ih =>
      intro n addr hres
      unfold Node.uvavAt
      cases hf : n.findSeg sg with
      | none =>
          rw [Node.canResolve, hf] at hres
          cases hres
      | some c =>
          rw [Node.canResolve, hf] at hres
          dsimp only at hres ⊢
          cases ho : opts.onlySelf with
          | true =>
              simp [ho, ih c (addr ++ [sg]) hres, expectedKeys]
          | false =>
              obtain ⟨v, s, hev⟩ := uvavLocal_evs_emitTrue opts
                ((n.setSeg sg (c.uvavAt (addr ++ [sg]) rest opts).1)) h
              simp [ho, hev, tagEvs, Ev.key, expectedKeys,
                ih c (addr ++ [sg]) hres]


theorem setSeg_data (n : Node) (sg : Seg) (c : Node) :
    (n.setSeg sg c).data = n.data := by
  cases n with
  | ctrl d k =>
      cases k with
      | leaf => cases sg <;> rfl
      | grp es => cases sg <;> rfl
      | arr items =>
          cases sg with
          | num i => rfl
          | str s =>
              simp only [Node.setSeg]
              cases s.toNat? <;> rfl

theorem find?_map_replace (k : String) (x : Node) :
    ∀ (es : List (String × Node)),
      ((es.find? (fun p => p.1 = k)).isSome = true) →
      ((es.map (fun p => if p.1 = k then (p.1, x) else p)).find?
        (fun p => p.1 = k)).map Prod.snd = some x := by
  intro es
  induction es with
  | nil => intro h; simp at h
  | cons p0 t ih =>
      intro h
      by_cases hk : p0.1 = k
      · simp [List.find?, hk]
      · have h' : ((t.find? fun p => decide (p.1 = k)).isSome = true) := by
          simpa [List.find?, hk] using h
        simpa [List.find?, hk] using ih h'

theorem get?_set_self (x : Node) :
    ∀ (items : List Node) (i : Nat),
      ((items.get? i).isSome = true) → (items.set i x).get? i = some x := by
  intro items
  induction items with
  | nil => intro i h; simp at h
  | cons a t ih =>
      intro i h
      cases i with
      | zero => rfl
      | succ j =>
          have : (t.get? j).isSome = true := by simpa using h
          simpa using ih j this

theorem findSeg_setSeg (n : Node) (sg : Seg) (c x : Node)
    (hf : n.findSeg sg = some c) :
    (n.setSeg sg x).findSeg sg = some x := by
  cases n with
  | ctrl d k =>
      cases k with
      | leaf => simp [Node.findSeg, Node.kids] at hf
      | grp es =>
          cases sg with
          | str s =>
              simp only [Node.findSeg, Node.kids] at hf
              simp only [Node.setSeg, Node.findSeg, Node.kids]
              cases hfind : es.find? (fun p => decide (p.1 = s)) with
              | none => rw [hfind] at hf; cases hf
              | some p => exact find?_map_replace s x es (by rw [hfind]; rfl)
          | num i =>
              simp only [Node.findSeg, Node.kids] at hf
              simp only [Node.setSeg, Node.findSeg, Node.kids]
              cases hfind : es.find? (fun p => decide (p.1 = toString i)) with
              | none => rw [hfind] at hf; cases hf
              | some p =>
                  exact find?_map_replace (toString i) x es
                    (by rw [hfind]; rfl)
      | arr items =>
          cases sg with
          | num i =>
              simp only [Node.findSeg, Node.kids] at hf
              simp only [Node.setSeg, Node.findSeg, Node.kids]
              exact get?_set_self x items i (by rw [hf]; rfl)
          | str s =>
              cases hn : s.toNat? with
              | none => simp [Node.findSeg, Node.kids, hn] at hf
              | some i =>
                  simp only [Node.findSeg, Node.kids, hn,
                    Option.some_bind] at hf
                  simp only [Node.setSeg]
                  rw [hn]
                  simp only [Node.findSeg, Node.kids, hn, Option.some_bind]
                  exact get?_set_self x items i (by rw [hf]; rfl)

theorem uvavAt_onlySelf_ancestors (opts : Opts) (ho : opts.onlySelf = true) :
    ∀ (path : List Seg) (n : Node) (addr : List Seg) (i : Nat),
      i < path.length →
      (n.uvavAt addr path opts).1.dataAt (path.take i)
        = n.dataAt (path.take i) := by
  intro path
  induction path with
  | nil => intro n addr i hi; cases hi
  | cons sg rest ih =>
      intro n addr i hi
      unfold Node.uvavAt
      cases hf : n.findSeg sg with
      | none => rfl
      | some c =>
          dsimp only
          rw [if_pos (by simp [ho])]
          cases i with
          | zero => simp [Node.dataAt, setSeg_data]
          | succ j =>
              have hj : j < rest.length := Nat.lt_of_succ_lt_succ hi
              simp only [List.take, Node.dataAt,
                findSeg_setSeg n sg c _ hf, hf, Option.some_bind]
              exact ih c (addr ++ [sg]) j hj


/-- C4: with `emitEvent` not `false`, a recomputed control emits on
`valueChanges` first and `statusChanges` second, and both emissions happen
before the parent recomputes (the log is bottom-up: the invoked control's
pair of events, then each ancestor's); with `emitEvent: false` nothing is
emitted; with `onlySelf` no ancestor is recomputed (every ancestor's own
state is unchanged). -/
theorem C4_emission_order (n : Node) (path : List Seg) (opts : Opts)
    (hres : n.canResolve path = true) :
    (opts.emitEvent = some false → (n.uvavAt [] path opts).2 = []) ∧
    (opts.emitEvent ≠ some false →
      ((n.uvavAt [] path opts).2).map Ev.key
        = expectedKeys [] path opts.onlySelf) ∧
    (opts.onlySelf = true → ∀ i, i < path.length →
      (n.uvavAt [] path opts).1.dataAt (path.take i)
        = n.dataAt (path.take i)) :=
  ⟨fun h => uvavAt_emitFalse opts h path n [],
   fun h => uvavAt_keys opts h path n [] hres,
   fun ho i hi => uvavAt_onlySelf_ancestors opts ho path n [] i hi⟩

/-- A one-child group for the emission-order witness. -/
def c4tree : Node := Node.ctrl
  { value := Value.obj [], status := Status.VALID, errors := none }
  (NKids.grp [("a", Node.ctrl
    { value := Value.atom (JVal.num 1), status := Status.VALID,
      errors := none } NKids.leaf)])

/-- C4 witness: recomputing the child `"a"` emits the child's value/status
pair and then the root's. -/
theorem C4_witness :
    ((c4tree.uvavAt [] [Seg.str "a"] {}).2).map Ev.key
      = expectedKeys [] [Seg.str "a"] false :=
  (C4_emission_order c4tree [Seg.str "a"] {} rfl).2.1 (by decide)

/-- C6 (amended): `disable()` itself clears `errors` to `null` and leaves
the raw and composed validators in place, with status DISABLED; however a
later `setErrors` call or a late asynchronous-validator result can make a
DISABLED control's errors non-empty again. -/
theorem C6_amended_disable_clears_errors (opts : Opts) (fc : FC) :
    ((fcDisable opts fc).1).core.errors = none ∧
    ((fcDisable opts fc).1).core.status = Status.DISABLED ∧
    ((fcDisable opts fc).1).core.rawValidators = fc.core.rawValidators ∧
    ((fcDisable opts fc).1).core.rawAsyncValidators
      = fc.core.rawAsyncValidators ∧
    ((fcDisable opts fc).1).core.composedValidatorFn
      = fc.core.composedValidatorFn ∧
    ((fcDisable opts fc).1).core.composedAsyncValidatorFn
      = fc.core.composedAsyncValidatorFn :=
  ⟨rfl, rfl, rfl, rfl, rfl, rfl⟩


@[simp] theorem cancel_subField (d : CData) :
    (cancelExistingSubscription d).asyncValidationSubscription
      = d.asyncValidationSubscription := by
  unfold cancelExistingSubscription; split <;> rfl

theorem subsWF_parts (d : CData) (h : subsWF d = true) :
    (∀ t ∈ d.liveSubs, d.asyncValidationSubscription = some t) ∧
    d.liveSubs.length ≤ 1 ∧
    (∀ t ∈ d.liveSubs, t.id < d.nextSubId) ∧
    (d.asyncValidationSubscription.all
      (fun s => s.id < d.nextSubId) = true) := by
  unfold subsWF at h
  simp only [Bool.and_eq_true, List.all_eq_true, decide_eq_true_eq,
    Nat.decLe, decide_eq_true_eq] at h
  obtain ⟨⟨⟨h1, h2⟩, h3⟩, h4⟩ := h
  exact ⟨h1, by simpa using h2, h3, h4⟩

theorem subsWF_of_nil (d : CData) (hl : d.liveSubs = [])
    (hf : d.asyncValidationSubscription.all
      (fun s => s.id < d.nextSubId) = true) : subsWF d = true := by
  unfold subsWF
  simp [hl, hf]

theorem cancel_live_nil (d : CData) (h : subsWF d = true) :
    (cancelExistingSubscription d).liveSubs = [] := by
  obtain ⟨h1, h2, h3, h4⟩ := subsWF_parts d h
  unfold cancelExistingSubscription
  cases hs : d.asyncValidationSubscription with
  | none =>
      cases hl : d.liveSubs with
      | nil => simp [hl]
      | cons t ts =>
          have := h1 t (by rw [hl]; exact List.mem_cons_self t ts)
          rw [hs] at this; cases this
  | some s =>
      dsimp only
      rw [List.filter_eq_nil_iff]
      intro t ht
      have := h1 t ht
      rw [hs] at this
      injection this with hts
      simp [hts]

theorem subsWF_runAsync (d : CData) (hl : d.liveSubs = [])
    (hf : d.asyncValidationSubscription.all
      (fun s => s.id < d.nextSubId) = true) :
    subsWF (runAsyncValidatorC d) = true := by
  unfold runAsyncValidatorC
  cases hca : d.composedAsyncValidatorFn with
  | none => exact subsWF_of_nil d hl hf
  | some av =>
      unfold subsWF
      simp [hl, Nat.lt_succ_self]

theorem subsWF_enabledStep (aD aP aI : Bool) (d : CData)
    (h : subsWF d = true) :
    subsWF (uvavEnabledStep aD aP aI d) = true := by
  have hnil := cancel_live_nil d h
  have h4 := (subsWF_parts d h).2.2.2
  unfold uvavEnabledStep
  dsimp only
  split
  · exact subsWF_runAsync _ (by simpa using hnil)
      (by simpa using h4)
  · exact subsWF_of_nil _ (by simpa using hnil)
      (by simpa using h4)

theorem subsWF_uvavCore (aD aP aI : Bool) (nv : Value) (o : Opts)
    (d : CData) (h : subsWF d = true) :
    subsWF ((uvavCore aD aP aI nv o d).1) = true := by
  unfold uvavCore
  dsimp only
  split
  · exact subsWF_enabledStep _ _ _ _ h
  · exact h

theorem subsWF_deliver (i : Nat) (opts : Opts) (fc : FC)
    (h : subsWF fc.core = true) :
    subsWF ((fcDeliverAsync i opts fc).1).core = true := by
  obtain ⟨h1, h2, h3, h4⟩ := subsWF_parts fc.core h
  unfold fcDeliverAsync
  cases hfind : fc.core.liveSubs.find? (fun s => s.id = i) with
  | none => exact h
  | some s =>
      dsimp only
      unfold fcSetErrors fcUpdateControlsErrors
      dsimp only
      apply subsWF_of_nil
      · show fc.core.liveSubs.filter (fun t => t.id ≠ i) = []
        rw [List.filter_eq_nil_iff]
        intro t ht
        have hts : s ∈ fc.core.liveSubs := List.mem_of_find?_eq_some hfind
        have hsi : s.id = i := by simpa using List.find?_some hfind
        have hterm : some t = some s := (h1 t ht).symm.trans (h1 s hts)
        injection hterm with hts2
        simp [hts2, hsi]
      · exact h4

theorem subsWF_fcUvav (opts : Opts) (fc : FC)
    (h : subsWF fc.core = true) :
    subsWF ((fcUvav opts fc).1).core = true :=
  subsWF_uvavCore _ _ _ _ opts _ h

theorem subsWF_applyFormState (fs : FormState) (fc : FC)
    (h : subsWF fc.core = true) :
    subsWF (fcApplyFormState fs fc).core = true := by
  cases fs with
  | ofValue v => exact h
  | box v dis =>
      cases dis with
      | true => exact h
      | false =>
          unfold fcApplyFormState fcEnable
          dsimp only
          exact subsWF_fcUvav _ _ h

theorem subsWF_reset (arg : Option FormState) (opts : Opts) (fc : FC)
    (h : subsWF fc.core = true) :
    subsWF ((fcReset arg opts fc).1).core = true := by
  unfold fcReset fcSetValue
  dsimp only
  exact subsWF_fcUvav _ _ (subsWF_applyFormState _ _ h)

/-- C2 (amended): a freshly constructed control satisfies the subscription
invariant; every public operation (and every async-result delivery)
preserves it; and under it at most one asynchronous-validator subscription
is outstanding.  (`disable()` does not cancel the outstanding
subscription — see the counterexample.) -/
theorem C2_amended_at_most_one_subscription :
    (∀ (init : FormState) (co : FCOpts),
      subsWF (newFormControl init co).core = true) ∧
    (∀ (fc fcp : FC), subsWF fc.core = true → FStep fc fcp →
      subsWF fcp.core = true) ∧
    (∀ d : CData, subsWF d = true → d.liveSubs.length ≤ 1) := by
  refine ⟨?_, ?_, ?_⟩
  · intro init co
    unfold newFormControl
    dsimp only
    split <;>
      exact subsWF_fcUvav {} _ (subsWF_applyFormState _ _ rfl)
  · intro fc fcp h hs
    cases hs with
    | uvav opts fc => exact subsWF_fcUvav opts fc h
    | setValue v opts fc => exact subsWF_fcUvav opts _ h
    | patchValue v opts fc => exact subsWF_fcUvav opts _ h
    | reset arg opts fc => exact subsWF_reset arg opts fc h
    | disable opts fc => exact h
    | enable opts fc => exact subsWF_fcUvav _ _ h
    | setErrors errors opts fc => exact h
    | deliverAsync i opts fc => exact subsWF_deliver i opts fc h
    | markAsTouched fc => exact h
    | markAsUntouched fc => exact h
    | markAsDirty fc => exact h
    | markAsPristine fc => exact h
    | markAsPending opts fc => exact h
    | setValidators v fc => exact h
    | setAsyncValidators v fc => exact h
  · intro d h
    exact (subsWF_parts d h).2.1

theorem enabledStep_async (d : CData) (av : AVFn)
    (hwf : subsWF d = true)
    (hv : d.composedValidatorFn = none)
    (ha : d.composedAsyncValidatorFn = some av) :
    (uvavEnabledStep false false false d).liveSubs
        = [⟨d.nextSubId, av.fn d.value⟩] ∧
    (uvavEnabledStep false false false d).asyncValidationSubscription
        = some ⟨d.nextSubId, av.fn d.value⟩ ∧
    (uvavEnabledStep false false false d).nextSubId = d.nextSubId + 1 ∧
    (uvavEnabledStep false false false d).status = Status.PENDING ∧
    (uvavEnabledStep false false false d).errors = none ∧
    (uvavEnabledStep false false false d).composedValidatorFn = none ∧
    (uvavEnabledStep false false false d).composedAsyncValidatorFn
        = some av ∧
    (uvavEnabledStep false false false d).value = d.value := by
  have hnil := cancel_live_nil d hwf
  have hrv : runValidatorC (cancelExistingSubscription d) = none := by
    unfold runValidatorC CData.validator
    rw [cancel_composed, hv]
  have hca : (cancelExistingSubscription d).composedAsyncValidatorFn
      = some av := by rw [cancel_composedAsync, ha]
  unfold uvavEnabledStep
  dsimp only
  rw [hrv]
  cases hb : (cancelExistingSubscription d).hasOwnPendingAsyncValidator with
  | true =>
      simp [calculateStatus, hb, runAsyncValidatorC, hca, hnil,
        cancel_nextSubId, cancel_value, hv, ha]
  | false =>
      simp [calculateStatus, hb, runAsyncValidatorC, hca, hnil,
        cancel_nextSubId, cancel_value, hv, ha]

theorem fcSetValue_async (va : Value) (o : Opts) (fc : FC) (av : AVFn)
    (hwf : subsWF fc.core = true)
    (hen : fc.core.status ≠ Status.DISABLED)
    (hv : fc.core.composedValidatorFn = none)
    (ha : fc.core.composedAsyncValidatorFn = some av) :
    ((fcSetValue va o fc).1).core.liveSubs
        = [⟨fc.core.nextSubId, av.fn va⟩] ∧
    ((fcSetValue va o fc).1).core.asyncValidationSubscription
        = some ⟨fc.core.nextSubId, av.fn va⟩ ∧
    ((fcSetValue va o fc).1).core.nextSubId = fc.core.nextSubId + 1 ∧
    ((fcSetValue va o fc).1).core.status = Status.PENDING ∧
    ((fcSetValue va o fc).1).core.errors = none ∧
    ((fcSetValue va o fc).1).core.composedValidatorFn = none ∧
    ((fcSetValue va o fc).1).core.composedAsyncValidatorFn = some av := by
  unfold fcSetValue fcUvav uvavCore
  dsimp only
  rw [show ({ fc with core := { fc.core with value := va } } : FC).core.disabled
        = false from by simp [CData.disabled, hen]]
  rw [if_pos (by simp [CData.enabled, setInitialStatus])]
  have h := enabledStep_async
    { setInitialStatus false
        ({ fc with core := { fc.core with value := va } } : FC).core
      with value := va } av hwf hv ha
  exact ⟨h.1, h.2.1, h.2.2.1, h.2.2.2.1, h.2.2.2.2.1,
    h.2.2.2.2.2.1, h.2.2.2.2.2.2.1⟩

theorem deliver_notLive (i : Nat) (opts : Opts) (fc : FC)
    (h : fc.core.liveSubs.find? (fun s => s.id = i) = none) :
    fcDeliverAsync i opts fc = (fc, []) := by
  unfold fcDeliverAsync
  rw [h]

theorem deliver_single (s : Subn) (opts : Opts) (fc : FC)
    (hl : fc.core.liveSubs = [s]) :
    ((fcDeliverAsync s.id opts fc).1).core.errors = s.result := by
  unfold fcDeliverAsync
  rw [hl]
  simp only [List.find?, decide_True, decide_eq_true_eq]
  rfl

theorem enabledStep_live_new (aD aP aI : Bool) (d : CData)
    (hwf : subsWF d = true) :
    ∀ t ∈ (uvavEnabledStep aD aP aI d).liveSubs, t.id = d.nextSubId := by
  have hnil := cancel_live_nil d hwf
  unfold uvavEnabledStep
  dsimp only
  split
  · unfold runAsyncValidatorC
    cases hca : (cancelExistingSubscription d).composedAsyncValidatorFn with
    | none =>
        intro t ht
        rw [hnil] at ht
        cases ht
    | some av =>
        intro t ht
        simp only [hnil, List.nil_append, List.mem_singleton] at ht
        rw [ht]
        simp [cancel_nextSubId]
  · intro t ht
    rw [hnil] at ht
    cases ht

theorem enabledStep_live_new2 (aD aP aI : Bool) (d : CData)
    (hwf : subsWF d = true) :
    ∀ t ∈ (uvavEnabledStep aD aP aI d).liveSubs,
      ∀ k : Nat, d.nextSubId = k → t.id = k := fun t ht k hk =>
  hk ▸ enabledStep_live_new aD aP aI d hwf t ht

/-- C3: on an enabled control, `updateValueAndValidity` (here through two
consecutive `setValue` calls before either async run settles) unsubscribes
the outstanding asynchronous run before starting a new one: after the
second call only the second run is subscribed, the first run's late result
is a no-op, and the second run's result — the validation of the second
value — is what lands in `errors`.  More generally any prior outstanding
subscription is gone after the call. -/
theorem C3_cancellation_second_run_wins (fc : FC) (va vb : Value)
    (av : AVFn) (o1 o2 o3 o4 : Opts)
    (hwf : subsWF fc.core = true)
    (hen : fc.core.status ≠ Status.DISABLED)
    (hv : fc.core.composedValidatorFn = none)
    (ha : fc.core.composedAsyncValidatorFn = some av) :
    (((fcSetValue va o1 fc).1).core.liveSubs.map Subn.id
        = [fc.core.nextSubId]) ∧
    (((fcSetValue vb o2 (fcSetValue va o1 fc).1).1).core.liveSubs.map Subn.id
        = [fc.core.nextSubId + 1]) ∧
    (fcDeliverAsync fc.core.nextSubId o3
        ((fcSetValue vb o2 (fcSetValue va o1 fc).1).1)
      = (((fcSetValue vb o2 (fcSetValue va o1 fc).1).1), [])) ∧
    (((fcDeliverAsync (fc.core.nextSubId + 1) o4
        ((fcSetValue vb o2 (fcSetValue va o1 fc).1).1)).1).core.errors
      = av.fn vb) ∧
    (∀ (o5 : Opts), ∀ s ∈ fc.core.liveSubs,
      ∀ t ∈ ((fcUvav o5 fc).1).core.liveSubs, t.id ≠ s.id) := by
  have h1 := fcSetValue_async va o1 fc av hwf hen hv ha
  have hwf1 : subsWF ((fcSetValue va o1 fc).1).core = true :=
    subsWF_fcUvav o1 _ hwf
  have hen1 : ((fcSetValue va o1 fc).1).core.status ≠ Status.DISABLED := by
    rw [h1.2.2.2.1]; intro hx; cases hx
  have h2 := fcSetValue_async vb o2 ((fcSetValue va o1 fc).1) av hwf1 hen1
    h1.2.2.2.2.2.1 h1.2.2.2.2.2.2
  have hl2 : ((fcSetValue vb o2 (fcSetValue va o1 fc).1).1).core.liveSubs
      = [⟨fc.core.nextSubId + 1, av.fn vb⟩] := by
    rw [h2.1, h1.2.2.1]
  refine ⟨?_, ?_, ?_, ?_, ?_⟩
  · rw [h1.1]; rfl
  · rw [hl2]; rfl
  · apply deliver_notLive
    rw [hl2]
    simp only [List.find?]
    rw [show (decide ((⟨fc.core.nextSubId + 1, av.fn vb⟩ : Subn).id
          = fc.core.nextSubId)) = false from by simp]
  · exact deliver_single ⟨fc.core.nextSubId + 1, av.fn vb⟩ o4 _ hl2
  · intro o5 s hs t ht
    have hid : t.id = fc.core.nextSubId := by
      revert ht
      unfold fcUvav uvavCore
      dsimp only
      rw [show ((fc : FC).core.disabled) = false from by
        simp [CData.disabled, hen]]
      rw [if_pos (by simp [CData.enabled, setInitialStatus])]
      intro ht
      exact enabledStep_live_new2 false false false _ (by exact hwf)
        t ht _ rfl
    have := (subsWF_parts fc.core hwf).2.2.1 s hs
    omega

/-- C2 counterexample: `disable()` does not cancel the outstanding
asynchronous-validator subscription — run 0 is still subscribed after
`disable()` — and its later result writes a non-empty errors map into the
DISABLED control. -/
theorem C2_counterexample :
    asyncCtl.core.liveSubs.map Subn.id = [0] ∧
    ((fcDisable {} asyncCtl).1).core.liveSubs.map Subn.id = [0] ∧
    ((fcDisable {} asyncCtl).1).core.liveSubs ≠ [] ∧
    ((fcDeliverAsync 0 {} (fcDisable {} asyncCtl).1).1).core.errors
      = some [("taken", JVal.bool true)] ∧
    ((fcDeliverAsync 0 {} (fcDisable {} asyncCtl).1).1).core.status
      = Status.DISABLED :=
  ⟨rfl, rfl, by decide, rfl, rfl⟩

/-- C2 witness: the invariant holds of a concrete control and is preserved
by a concrete step. -/
theorem C2_witness :
    subsWF asyncCtl.core = true ∧
    subsWF ((fcDisable {} asyncCtl).1).core = true :=
  ⟨C2_amended_at_most_one_subscription.1
      (FormState.ofValue (Value.atom (JVal.str "a")))
      { asyncValidators := RawAV.single takenAV },
   C2_amended_at_most_one_subscription.2.1 asyncCtl _ (by decide)
      (FStep.disable {} asyncCtl)⟩

/-- C3 witness: the cancellation scenario run on a concrete control — set
`"a"` then `"b"` before either async run settles; the second run's
subscription (id 2) is the only live one and its result is what lands. -/
theorem C3_witness :
    (((fcSetValue (Value.atom (JVal.str "b")) {}
        (fcSetValue (Value.atom (JVal.str "a")) {} asyncCtl).1).1).core.liveSubs.map
          Subn.id = [asyncCtl.core.nextSubId + 1]) ∧
    ((fcDeliverAsync (asyncCtl.core.nextSubId + 1) {}
        ((fcSetValue (Value.atom (JVal.str "b")) {}
          (fcSetValue (Value.atom (JVal.str "a")) {} asyncCtl).1).1)).1).core.errors
      = takenAV.fn (Value.atom (JVal.str "b")) :=
  ⟨(C3_cancellation_second_run_wins asyncCtl _ _ takenAV {} {} {} {}
      (by decide) (by decide) rfl rfl).2.1,
   (C3_cancellation_second_run_wins asyncCtl _ _ takenAV {} {} {} {}
      (by decide) (by decide) rfl rfl).2.2.2.1⟩

end RForms
